import Mathlib

/-
Formal model of scraper.py: a GoodFirms listing scraper consisting of an HTTP
fetcher with bounded retries and linear backoff, a listing-page parser that
positionally pairs company name spans with firm-location divs, a profile email
extractor (mailto hrefs plus plain-text regex matches, set-deduplicated and
sorted), a relative-URL resolver against a fixed base, and a page-loop
orchestrator producing one CompanyRecord per listing entry.

HTML documents are modelled abstractly: a parsed document is represented by the
query results the program extracts from it (name spans with their enclosing
anchor's href, firm-location div texts, mailto anchor hrefs, and the raw page
text).  The network is modelled as an oracle mapping a URL and an attempt index
to the outcome of that GET attempt.  Observable effects (console prints, GET
attempts, sleeps) are collected into an event trace.
-/

/-- One observable effect of the program: a console print, a single HTTP GET
attempt, or a politeness/backoff sleep (duration in seconds). -/
inductive Ev where
  | print (msg : String)
  | attempt (url : String)
  | sleep (secs : ℚ)
  deriving DecidableEq

/-- A `span` element with `itemprop="name"`: its stripped text and, when the
span sits inside an `<a>` element carrying an `href` attribute, that href. -/
structure NameSpan where
  text : String
  parent_href : Option String
  deriving DecidableEq

/-- Abstract parsed HTML document, represented by the query results the
scraper extracts from it. `name_spans` and `loc_divs` are in document order;
`mailto_hrefs` are the hrefs of anchors whose href begins with `mailto`;
`text` is the raw page markup. -/
structure Html where
  name_spans : List NameSpan
  loc_divs : List String
  mailto_hrefs : List String
  text : String
  deriving DecidableEq

/-- Transient record produced by `parse_listing_page` for one company. -/
structure ListingEntry where
  name : String
  profile_href : Option String
  listing_location : Option String
  deriving DecidableEq

/-- The exported unit: one CSV row per company. -/
structure CompanyRecord where
  company_name : String
  company_profile_url : Option String
  company_geo : Option String
  company_emails : String
  deriving DecidableEq

/-- The fixed `BASE_LISTING` constant of scraper.py. -/
def BASE_LISTING : String := "https://www.goodfirms.co/big-data-analytics/data-analytics"

/-- Whether `p` is a prefix of `l`, by recursion on `p` (so that an empty or
exhausted pattern answers positively without inspecting the rest). -/
def isPre : List Char → List Char → Bool
  | [], _ => true
  | a :: as, bs =>
    match bs with
    | [] => false
    | b :: bs2 => if a == b then isPre as bs2 else false

/-- Python `str.startswith`: `strStartsWith s p` is true when `p` is a prefix
of `s` (modelled over the character lists). -/
def strStartsWith (s p : String) : Bool :=
  isPre p.data s.data

/-- Split a character list at the longest prefix whose characters satisfy `p`
(the maximal-munch step of matching a `[...]+` character class). -/
def takeRun (p : Char → Bool) : List Char → List Char × List Char
  | [] => ([], [])
  | c :: cs =>
    if p c then
      let (a, b) := takeRun p cs
      (c :: a, b)
    else ([], c :: cs)

/-- Characters matched by the local-part class `[A-Za-z0-9._%+-]` of EMAIL_RE. -/
def isLocalChar (c : Char) : Bool :=
  c.isAlpha || c.isDigit || c == '.' || c == '_' || c == '%' || c == '+' || c == '-'

/-- Characters matched by the domain class `[A-Za-z0-9.-]` of EMAIL_RE. -/
def isDomainChar (c : Char) : Bool :=
  c.isAlpha || c.isDigit || c == '.' || c == '-'

/-- Length of the run of ASCII letters at the head of the list (the greedy
extent of `[A-Za-z]{2,}` at that position). -/
def alphaRunLen : List Char → Nat
  | [] => 0
  | c :: cs => if c.isAlpha then alphaRunLen cs + 1 else 0

/-- Within a maximal run `dom` of domain characters, the rightmost index `j`
such that `dom` can be split as `[A-Za-z0-9.-]+` (nonempty, hence `j ≠ 0`),
a literal dot at `j`, and at least two letters after it: the split the
backtracking regex engine settles on for `[A-Za-z0-9.-]+\.[A-Za-z]\x7b2,\x7d`. -/
def tldDotIndex (dom : List Char) : Option Nat :=
  ((List.range dom.length).filter (fun j =>
    decide (j ≠ 0) && (dom[j]? == some '.') &&
      decide (2 ≤ alphaRunLen (dom.drop (j + 1))))).getLast?

/-- Attempt to match EMAIL_RE at the head of `cs`; on success return the
matched email and the characters following the match. -/
def matchEmailAt (cs : List Char) : Option (String × List Char) :=
  let (loc, r1) := takeRun isLocalChar cs
  if loc.isEmpty then none
  else
    match r1 with
    | '@' :: r2 =>
      let (dom, r3) := takeRun isDomainChar r2
      match tldDotIndex dom with
      | none => none
      | some j =>
        let len := j + 1 + alphaRunLen (dom.drop (j + 1))
        some (String.mk (loc ++ '@' :: dom.take len), dom.drop len ++ r3)
    | _ => none

/-- Scan for all non-overlapping EMAIL_RE matches, left to right (Python
`EMAIL_RE.findall`).  `fuel` bounds the recursion; every step consumes at
least one character, so `fuel := length` is always sufficient. -/
def findallAux : Nat → List Char → List String
  | 0, _ => []
  | _, [] => []
  | fuel + 1, c :: cs =>
    match matchEmailAt (c :: cs) with
    | some (m, rest) => m :: findallAux fuel rest
    | none => findallAux fuel cs

/-- Python `EMAIL_RE.findall(s)`. -/
def EMAIL_RE_findall (s : String) : List String :=
  findallAux s.toList.length s.toList

/-- Scan for the leftmost EMAIL_RE match. -/
def searchAux : List Char → Option String
  | [] => none
  | c :: cs =>
    match matchEmailAt (c :: cs) with
    | some (m, _) => some m
    | none => searchAux cs

/-- Python `EMAIL_RE.search(s)`, returning `m.group(0)` of the first match. -/
def EMAIL_RE_search (s : String) : Option String :=
  searchAux s.toList

/-- The network oracle: `net url i` is the outcome of the `i`-th GET attempt
against `url` (a response document, or a raised request failure of type `ε`). -/
def Net (ε : Type) : Type := String → Nat → Except ε Html

/-- The retry loop of `fetch`, running attempts `attempt, attempt+1, …` with
`rest` further attempts allowed after the current one.  Mirrors
`for attempt in range(retry + 1)`: on failure with attempts remaining it
sleeps `2 + attempt` seconds and retries; otherwise it re-raises. -/
def fetchLoop {ε : Type} (net : Net ε) (url : String) : Nat → Nat → List Ev × Except ε Html
  | attempt, 0 => ([Ev.attempt url], net url attempt)
  | attempt, rest + 1 =>
    match net url attempt with
    | Except.ok r => ([Ev.attempt url], Except.ok r)
    | Except.error _ =>
      let (evs, out) := fetchLoop net url (attempt + 1) rest
      (Ev.attempt url :: Ev.sleep ((2 + attempt : ℕ) : ℚ) :: evs, out)

/-- Model of `fetch(url, retry, timeout)` of scraper.py.  The `timeout` argument only
parameterises the underlying GET and is not observable here; the outcome of
each attempt is given by the oracle `net`. -/
def fetch {ε : Type} (net : Net ε) (url : String) (retry : Nat) :
    List Ev × Except ε Html :=
  fetchLoop net url 0 retry

/-- The `for idx, span in enumerate(name_spans)` loop body of
`parse_listing_page`: index `idx` pairs the current span with
`loc_divs[idx]` when that index is in range. -/
def parseNameSpans (locs : List String) : Nat → List NameSpan → List ListingEntry
  | _, [] => []
  | idx, span :: rest =>
    { name := span.text
      profile_href := span.parent_href
      listing_location := locs[idx]? } :: parseNameSpans locs (idx + 1) rest

/-- Model of `parse_listing_page(html)` of scraper.py. -/
def parse_listing_page (html : Html) : List ListingEntry :=
  parseNameSpans html.loc_divs 0 html.name_spans

/-- Characters admissible in a URL scheme after the initial letter
(`scheme_chars` of urllib.parse). -/
def isSchemeChar (c : Char) : Bool :=
  c.isAlpha || c.isDigit || c == '+' || c == '-' || c == '.'

/-- Split a leading `scheme:` off a URL reference, when one is present:
an initial letter, further scheme characters, then a colon. -/
def splitScheme (s : String) : Option (String × String) :=
  match s.toList with
  | [] => none
  | c :: cs =>
    if c.isAlpha then
      let (run, rest) := takeRun isSchemeChar cs
      match rest with
      | ':' :: rest2 => some (String.mk (c :: run), String.mk rest2)
      | _ => none
    else none

/-- Split a string at the first occurrence of `sep`; the second component is
the remainder after the separator when the separator occurs. -/
def splitOnceChar (sep : Char) (s : String) : String × Option String :=
  let (a, b) := takeRun (fun c => !(c == sep)) s.toList
  match b with
  | [] => (String.mk a, none)
  | _ :: rest => (String.mk a, some (String.mk rest))

/-- Split `scheme-relative` text into network location (up to the first `/`,
`?` or `#`) and the rest. -/
def netlocSplit (s : String) : String × String :=
  let (n, r) := takeRun (fun c => !(c == '/' || c == '?' || c == '#')) s.toList
  (String.mk n, String.mk r)

/-- Split a character list at every occurrence of `sep`, keeping empty
pieces (Python `str.split(sep)` with a one-character separator). -/
def splitCharAux (sep : Char) : List Char → List Char → List String
  | cur, [] => [String.mk cur.reverse]
  | cur, c :: cs =>
    if c == sep then String.mk cur.reverse :: splitCharAux sep [] cs
    else splitCharAux sep (c :: cur) cs

/-- Split a path into its `/`-separated segments. -/
def splitOnSlash (s : String) : List String :=
  splitCharAux '/' [] s.data

/-- Dot-segment resolution over path segments, as in urllib.parse: `..` pops
the previous segment (never the leading empty segment), `.` is dropped. -/
def resolveSegsAux : List String → List String → List String
  | acc, [] => acc.reverse
  | acc, seg :: rest =>
    if seg = ".." then
      resolveSegsAux (if 2 ≤ acc.length then acc.tail else acc) rest
    else if seg = "." then resolveSegsAux acc rest
    else resolveSegsAux (seg :: acc) rest

/-- Join resolved path segments back into a path, appending a trailing empty
segment when the reference ended in `.` or `..`, and defaulting to `/`. -/
def resolveSegments (segments : List String) : String :=
  let resolved := resolveSegsAux [] segments
  let resolved2 :=
    match segments.getLast? with
    | some s => if s = "." || s = ".." then resolved ++ [""] else resolved
    | none => resolved
  let joined := String.intercalate "/" resolved2
  if joined.isEmpty then "/" else joined

/-- Modelled from the spec: `urllib.parse.urljoin` (the "standard
relative-URL resolution" of §4.3), which is library code not present in the
repository.  A reference carrying its own scheme is returned unchanged (in the
program the base's own scheme `https` is intercepted upstream by the
`startswith('http')` guard); a scheme-relative reference adopts the base's
scheme; otherwise the reference's path is resolved against the base's
authority and path with dot-segment removal, keeping the reference's query
and fragment. -/
def urljoin (base url : String) : String :=
  if base.isEmpty then url
  else if url.isEmpty then base
  else
    match splitScheme url with
    | some _ => url
    | none =>
      match splitScheme base with
      | none => url
      | some (bscheme, brest) =>
        let (bnetloc, bpath) :=
          if strStartsWith brest "//" then netlocSplit (brest.drop 2) else ("", brest)
        if strStartsWith url "//" then bscheme ++ ":" ++ url
        else
          let (rest1, fragment) := splitOnceChar '#' url
          let (pathPart, query) := splitOnceChar '?' rest1
          let queryStr :=
            match query with
            | some q => if q.isEmpty then "" else "?" ++ q
            | none => ""
          let fragStr :=
            match fragment with
            | some f => if f.isEmpty then "" else "#" ++ f
            | none => ""
          if pathPart.isEmpty then
            bscheme ++ "://" ++ bnetloc ++ bpath ++ queryStr ++ fragStr
          else
            let segments :=
              if strStartsWith pathPart "/" then splitOnSlash pathPart
              else (splitOnSlash bpath).dropLast ++ splitOnSlash pathPart
            bscheme ++ "://" ++ bnetloc ++ resolveSegments segments ++ queryStr ++ fragStr

/-- Model of `resolve_profile_url(href)` of scraper.py.  `if not href` covers both a
missing href and an empty one. -/
def resolve_profile_url (href : Option String) : Option String :=
  match href with
  | none => none
  | some s =>
    if s.isEmpty then none
    else if strStartsWith s "http" then some s
    else some (urljoin BASE_LISTING s)

/-- Lexicographic comparison of character lists by code point: Python's
string `<=` used by `sorted`. -/
def lexLe : List Char → List Char → Bool
  | [], _ => true
  | _ :: _, [] => false
  | a :: as, b :: bs =>
    if a < b then true
    else if b < a then false
    else lexLe as bs

/-- Python string comparison `a <= b` (lexicographic by code point). -/
def strLeb (a b : String) : Bool :=
  lexLe a.data b.data

/-- Python `set.add`: a Python set of strings is modelled as a duplicate-free list;
adding an element already present leaves the set unchanged. -/
def setAdd (acc : List String) (m : String) : List String :=
  if m ∈ acc then acc else acc ++ [m]

/-- Model of `extract_emails_from_profile(profile_url)` of scraper.py: fetch the
profile (any failure is swallowed into an empty result), collect EMAIL_RE
matches from mailto hrefs and from the raw page text into a set, and return
the set sorted ascending (Python `sorted`). -/
def extract_emails_from_profile {ε : Type} (net : Net ε) (profile_url : String) :
    List Ev × List String :=
  match fetch net profile_url 2 with
  | (evs, Except.error _) => (evs, [])
  | (evs, Except.ok html) =>
    let s1 : List String :=
      html.mailto_hrefs.foldl (fun acc href =>
        match EMAIL_RE_search href with
        | some m => setAdd acc m
        | none => acc) []
    let s2 : List String :=
      (EMAIL_RE_findall html.text).foldl (fun acc m => setAdd acc m) s1
    (evs, List.insertionSort (fun a b => strLeb a b = true) s2)

/-- The same extractor with the two collection phases swapped (plain-text
matches added first, mailto matches second): used to state that the result
does not depend on the discovery order. -/
def extract_emails_swapped {ε : Type} (net : Net ε) (profile_url : String) :
    List Ev × List String :=
  match fetch net profile_url 2 with
  | (evs, Except.error _) => (evs, [])
  | (evs, Except.ok html) =>
    let s1 : List String :=
      (EMAIL_RE_findall html.text).foldl (fun acc m => setAdd acc m) []
    let s2 : List String :=
      html.mailto_hrefs.foldl (fun acc href =>
        match EMAIL_RE_search href with
        | some m => setAdd acc m
        | none => acc) s1
    (evs, List.insertionSort (fun a b => strLeb a b = true) s2)

/-- Python truthiness of the optional `profile_href` string: present and
non-empty. -/
def truthy : Option String → Bool
  | none => false
  | some s => !s.isEmpty

/-- The assignment `profile_url = resolve_profile_url(profile_href) if profile_href else None`
in the scrape loop. -/
def resolvedUrl (e : ListingEntry) : Option String :=
  if truthy e.profile_href then resolve_profile_url e.profile_href else none

/-- The emails obtained for one listing entry: extracted from the resolved
profile page when there is one, empty otherwise. -/
def entryEmails {ε : Type} (net : Net ε) (e : ListingEntry) : List String :=
  match resolvedUrl e with
  | some u => (extract_emails_from_profile net u).2
  | none => []

/-- The per-entry body of the scrape loop: resolve the profile URL, visit it
when present (printing, extracting emails and sleeping `delay` afterwards),
and build the company record, joining emails with `"; "` (empty string when
no emails were found).  `extract_emails_from_profile` swallows fetch
failures, so the surrounding `try/except` never fires in this model. -/
def processEntry {ε : Type} (net : Net ε) (delay : ℚ) (e : ListingEntry) :
    List Ev × CompanyRecord :=
  let profile_url := resolvedUrl e
  let (evs, emails) :=
    match profile_url with
    | some u =>
      let (fevs, ems) := extract_emails_from_profile net u
      (Ev.print ("    Visiting profile: " ++ u) :: fevs ++ [Ev.sleep delay], ems)
    | none => ([], [])
  (evs,
   { company_name := e.name
     company_profile_url := profile_url
     company_geo := e.listing_location
     company_emails := if emails.isEmpty then "" else String.intercalate "; " emails })

/-- The listing URL: `url = BASE_LISTING` and, for `page > 1`, the `?page=N` query variant. -/
def listingUrl (page : Nat) : String :=
  if 1 < page then BASE_LISTING ++ "?page=" ++ toString page else BASE_LISTING

/-- The `for page in range(1, pages + 1)` loop of `scrape`, starting at page
index `page` with `rem` pages still to process.  A listing fetch failure is
not caught: the loop stops and re-raises, discarding all accumulated
records.  After a successful page the loop sleeps `delay` once more. -/
def scrapeLoop {ε : Type} (net : Net ε) (delay : ℚ) :
    Nat → Nat → List Ev × Except ε (List CompanyRecord)
  | _, 0 => ([], Except.ok [])
  | page, rem + 1 =>
    let url := listingUrl page
    let (fevs, fres) := fetch net url 2
    match fres with
    | Except.error e =>
      (Ev.print ("Fetching listing page: " ++ url) :: fevs, Except.error e)
    | Except.ok html =>
      let entries := parse_listing_page html
      let processed := entries.map (processEntry net delay)
      let entryEvs := (processed.map Prod.fst).flatten
      let records := processed.map Prod.snd
      let (revs, rout) := scrapeLoop net delay (page + 1) rem
      (Ev.print ("Fetching listing page: " ++ url) :: fevs ++
         Ev.print ("  found " ++ toString entries.length ++
           " company name entries on page " ++ toString page) :: entryEvs ++
         Ev.sleep delay :: revs,
       match rout with
       | Except.ok rs => Except.ok (records ++ rs)
       | Except.error e => Except.error e)

/-- Model of `scrape(pages, delay)` of scraper.py (the DataFrame construction is the
out-of-scope exporter; the result is the accumulated record list). -/
def scrape {ε : Type} (net : Net ε) (pages : Nat) (delay : ℚ) :
    List Ev × Except ε (List CompanyRecord) :=
  scrapeLoop net delay 1 pages

/-- A string is an absolute URL in the sense of the spec's "absolute" when it
carries a scheme followed by an authority component (`scheme://…`). -/
def hasSchemeAndAuthority (s : String) : Bool :=
  match splitScheme s with
  | some (_, rest) => strStartsWith rest "//"
  | none => false

/-- Whether an event is a GET attempt against the given URL. -/
def Ev.isAttemptTo (url : String) : Ev → Bool
  | Ev.attempt u => u == url
  | _ => false

/-- The duration of a sleep event, `none` for other events. -/
def Ev.sleepSecs : Ev → Option ℚ
  | Ev.sleep d => some d
  | _ => none

/-- Project the console message announcing a listing-page fetch; each listing
fetch call prints exactly one such message, so these messages enumerate the
listing fetches of a run. -/
def Ev.listingFetchMsg : Ev → Option String
  | Ev.print m => if strStartsWith m "Fetching listing page: " then some m else none
  | _ => none

/-- A network on which every GET attempt fails. -/
def netAllFail : Net Nat := fun _ _ => Except.error 0

/-- A document with no name spans, no locations, no mailtos and empty text. -/
def emptyHtml : Html := ⟨[], [], [], ""⟩

/-- A network serving only the bare base listing URL; every other URL
(including `?page=N` variants) fails on every attempt. -/
def netListingOnly : Net Nat :=
  fun u _ => if u = BASE_LISTING then Except.ok emptyHtml else Except.error 0

/-- A network on which every GET succeeds with an empty document. -/
def netAlwaysOk : Net Nat := fun _ _ => Except.ok emptyHtml

/-- Listing markup with two name spans and one firm-location div. -/
def samplePage : Html :=
  ⟨[⟨"Acme Co", some "/company/acme"⟩, ⟨"Beta LLC", none⟩], ["New York, US"], [], ""⟩

/-- A listing page whose single company profile link is `/company/acme`. -/
def demoListing : Html :=
  ⟨[⟨"Acme Co", some "/company/acme"⟩], ["New York, US"], [], ""⟩

/-- Acme's profile page: one mailto anchor plus a plain-text email. -/
def demoProfile : Html :=
  ⟨[], [], ["mailto:sales@acme.com"], "info@acme.com mentioned here"⟩

/-- A network serving `demoListing` at the base URL and `demoProfile`
everywhere else. -/
def netDemo : Net Nat :=
  fun u _ => if u = BASE_LISTING then Except.ok demoListing else Except.ok demoProfile

/-- A listing page whose company profile href is the relative path
`httpx.html`, which happens to begin with `http`. -/
def listingWithHttpx : Html := ⟨[⟨"Acme", some "httpx.html"⟩], [], [], ""⟩

/-- A network serving `listingWithHttpx` at the base URL; all other URLs
fail. -/
def netHttpx : Net Nat :=
  fun u _ => if u = BASE_LISTING then Except.ok listingWithHttpx else Except.error 0

theorem parseNameSpans_length (locs : List String) :
    ∀ (spans : List NameSpan) (idx : Nat),
      (parseNameSpans locs idx spans).length = spans.length := by
  intro spans
  induction spans with
  | nil => intro idx; rfl
  | cons s rest ih => intro idx; simp [parseNameSpans, ih]

theorem parseNameSpans_getElem (locs : List String) :
    ∀ (spans : List NameSpan) (idx i : Nat),
      (parseNameSpans locs idx spans)[i]? =
        spans[i]?.map (fun s => ⟨s.text, s.parent_href, locs[idx + i]?⟩) := by
  intro spans
  induction spans with
  | nil => intro idx i; simp [parseNameSpans]
  | cons s rest ih =>
    intro idx i
    cases i with
    | zero => simp [parseNameSpans]
    | succ j =>
      simp only [parseNameSpans, List.getElem?_cons_succ]
      rw [ih (idx + 1) j]
      have h : idx + 1 + j = idx + (j + 1) := by omega
      rw [h]

theorem parse_listing_page_getElem (page : Html) (i : Nat) :
    (parse_listing_page page)[i]? =
      page.name_spans[i]?.map (fun s => ⟨s.text, s.parent_href, page.loc_divs[i]?⟩) := by
  unfold parse_listing_page
  rw [parseNameSpans_getElem]
  simp

/-- C1: on a listing page with `N` name elements and `M ≤ N` location
elements, parsing yields exactly `N` entries in document order; for `i < M`
the `i`-th entry's `listing_location` is the text of the `i`-th location
element (non-null), and for `M ≤ i < N` it is null. -/
theorem c1_parse_listing_positional (page : Html)
    (h : page.loc_divs.length ≤ page.name_spans.length) :
    (parse_listing_page page).length = page.name_spans.length ∧
    (∀ i : Nat, ((parse_listing_page page)[i]?).map ListingEntry.name =
      (page.name_spans[i]?).map NameSpan.text) ∧
    (∀ (i : Nat) (hi : i < page.loc_divs.length),
      ((parse_listing_page page)[i]?).map ListingEntry.listing_location =
        some (some (page.loc_divs.get ⟨i, hi⟩))) ∧
    (∀ i : Nat, page.loc_divs.length ≤ i → i < page.name_spans.length →
      ((parse_listing_page page)[i]?).map ListingEntry.listing_location = some none) := by
  refine ⟨?_, ?_, ?_, ?_⟩
  · unfold parse_listing_page; exact parseNameSpans_length _ _ _
  · intro i
    rw [parse_listing_page_getElem]
    cases page.name_spans[i]? <;> simp
  · intro i hi
    rw [parse_listing_page_getElem]
    have hn : i < page.name_spans.length := lt_of_lt_of_le hi h
    rw [List.getElem?_eq_getElem hn, List.getElem?_eq_getElem hi]
    simp [List.get_eq_getElem]
  · intro i hM hN
    rw [parse_listing_page_getElem]
    rw [List.getElem?_eq_getElem hN, List.getElem?_eq_none hM]
    simp

/-- Witness for C1: the sample page has two name spans and one location div,
and parsing returns two entries. -/
theorem c1_witness : (parse_listing_page samplePage).length = 2 :=
  (c1_parse_listing_positional samplePage (by decide)).1

theorem fetchLoop_allError {ε : Type} (net : Net ε) (url : String) :
    ∀ (rest attempt : Nat),
      (∀ i, attempt ≤ i → i ≤ attempt + rest → ∃ e, net url i = Except.error e) →
      ((fetchLoop net url attempt rest).1.filter (Ev.isAttemptTo url)).length = rest + 1 ∧
      (fetchLoop net url attempt rest).1.filterMap Ev.sleepSecs =
        (List.range rest).map (fun i => ((2 + attempt + i : ℕ) : ℚ)) ∧
      (fetchLoop net url attempt rest).2 = net url (attempt + rest) := by
  intro rest
  induction rest with
  | zero =>
    intro attempt _
    refine ⟨?_, ?_, rfl⟩
    · simp [fetchLoop, Ev.isAttemptTo]
    · simp [fetchLoop, Ev.sleepSecs]
  | succ rest ih =>
    intro attempt h
    obtain ⟨e, he⟩ := h attempt (le_refl _) (by omega)
    have ih2 := ih (attempt + 1) (fun i h1 h2 => h i (by omega) (by omega))
    refine ⟨?_, ?_, ?_⟩
    · simp only [fetchLoop, he]
      simp only [List.filter_cons]
      simp [Ev.isAttemptTo, Ev.sleepSecs, ih2.1]
    · simp only [fetchLoop, he]
      simp only [List.filterMap_cons, Ev.sleepSecs, ih2.2.1]
      rw [List.range_succ_eq_map, List.map_cons, List.map_map]
      have hf : ((fun i => ((2 + attempt + i : ℕ) : ℚ)) ∘ Nat.succ) =
          (fun i => ((2 + (attempt + 1) + i : ℕ) : ℚ)) := by
        funext i
        have : 2 + attempt + Nat.succ i = 2 + (attempt + 1) + i := by omega
        simp [Function.comp, this]
      rw [hf]
      simp
    · simp only [fetchLoop, he]
      have : attempt + 1 + rest = attempt + (rest + 1) := by omega
      rw [← this]
      exact ih2.2.2

/-- C2: when every GET attempt against `url` fails, `fetch` makes exactly
`retry + 1` attempts, sleeps exactly `retry` times with durations
`2, 3, …, retry + 1` seconds (duration `2 + attempt_index` after the failed
attempt with that index), and its outcome is the failure of the last
attempt, re-raised to the caller. -/
theorem c2_fetch_retry_backoff {ε : Type} (net : Net ε) (url : String) (retry : Nat)
    (h : ∀ i, i ≤ retry → ∃ e, net url i = Except.error e) :
    ((fetch net url retry).1.filter (Ev.isAttemptTo url)).length = retry + 1 ∧
    (fetch net url retry).1.filterMap Ev.sleepSecs =
      (List.range retry).map (fun i => ((2 + i : ℕ) : ℚ)) ∧
    (fetch net url retry).2 = net url retry := by
  have h0 := fetchLoop_allError net url retry 0 (fun i _ h2 => h i (by omega))
  unfold fetch
  refine ⟨h0.1, ?_, by simpa using h0.2.2⟩
  rw [h0.2.1]

/-- Witness for C2: on a network where every attempt fails, a fetch with
`retry = 2` makes 3 attempts, sleeps twice (2 s then 3 s), and its outcome is
the last attempt's failure. -/
theorem c2_witness :
    (((fetch netAllFail "u" 2).1.filter (Ev.isAttemptTo "u")).length = 3) ∧
    ((fetch netAllFail "u" 2).1.filterMap Ev.sleepSecs =
      (List.range 2).map (fun i => ((2 + i : ℕ) : ℚ))) ∧
    ((fetch netAllFail "u" 2).2 = netAllFail "u" 2) :=
  c2_fetch_retry_backoff netAllFail "u" 2 (fun _ _ => ⟨0, rfl⟩)

/-- C10: with `pages = 0` the orchestrator performs no effects at all (no
listing fetches, no profile visits, no sleeps, no prints) and returns the
empty record sequence. -/
theorem c10_zero_pages {ε : Type} (net : Net ε) (delay : ℚ) :
    scrape net 0 delay = ([], Except.ok []) := rfl

/-- C6: the resolver returns null on a missing or empty href, returns an href
already beginning with `http` unchanged, and otherwise joins the href against
the fixed base listing URL with the (modelled) standard relative-URL
resolution. -/
theorem c6_resolve_profile_url :
    resolve_profile_url none = none ∧
    resolve_profile_url (some "") = none ∧
    (∀ s : String, s.isEmpty = false → strStartsWith s "http" = true →
      resolve_profile_url (some s) = some s) ∧
    (∀ s : String, s.isEmpty = false → strStartsWith s "http" = false →
      resolve_profile_url (some s) = some (urljoin BASE_LISTING s)) := by
  refine ⟨rfl, rfl, ?_, ?_⟩
  · intro s h1 h2
    simp [resolve_profile_url, h1, h2]
  · intro s h1 h2
    simp [resolve_profile_url, h1, h2]

/-- Witness for C6: a root-relative href is joined against the base. -/
theorem c6_witness :
    resolve_profile_url (some "/company/acme") =
      some (urljoin BASE_LISTING "/company/acme") :=
  c6_resolve_profile_url.2.2.2 "/company/acme" (by decide) (by decide)

theorem extract_emails_trace {ε : Type} (net : Net ε) (u : String) :
    (extract_emails_from_profile net u).1 = (fetch net u 2).1 := by
  unfold extract_emails_from_profile
  rcases hf : fetch net u 2 with ⟨evs, res⟩
  cases res <;> rfl

theorem fetchLoop_no_listing_print {ε : Type} (net : Net ε) (url : String) :
    ∀ (rest attempt : Nat),
      (fetchLoop net url attempt rest).1.filterMap Ev.listingFetchMsg = [] := by
  intro rest
  induction rest with
  | zero => intro a; rfl
  | succ rest ih =>
    intro a
    cases h : net url a with
    | ok r => simp [fetchLoop, h, Ev.listingFetchMsg]
    | error e =>
      rcases hfl : fetchLoop net url (a + 1) rest with ⟨evs, out⟩
      have ih2 := ih (a + 1)
      rw [hfl] at ih2
      simp [fetchLoop, h, hfl, Ev.listingFetchMsg, ih2]

theorem visiting_msg_not_listing (u : String) :
    Ev.listingFetchMsg (Ev.print ("    Visiting profile: " ++ u)) = none := by
  have h : strStartsWith ("    Visiting profile: " ++ u) "Fetching listing page: " = false := by
    unfold strStartsWith
    rw [String.data_append]
    rfl
  simp [Ev.listingFetchMsg, h]

theorem found_msg_not_listing (a b : String) :
    Ev.listingFetchMsg
      (Ev.print ("  found " ++ a ++ " company name entries on page " ++ b)) = none := by
  have h : strStartsWith ("  found " ++ a ++ " company name entries on page " ++ b)
      "Fetching listing page: " = false := by
    unfold strStartsWith
    rw [String.data_append, String.data_append, String.data_append]
    rfl
  simp [Ev.listingFetchMsg, h]

theorem listing_msg_is_listing (u : String) :
    Ev.listingFetchMsg (Ev.print ("Fetching listing page: " ++ u)) =
      some ("Fetching listing page: " ++ u) := by
  have h : strStartsWith ("Fetching listing page: " ++ u) "Fetching listing page: " = true := by
    unfold strStartsWith
    rw [String.data_append]
    rfl
  simp [Ev.listingFetchMsg, h]

theorem processEntry_no_listing_print {ε : Type} (net : Net ε) (delay : ℚ) (e : ListingEntry) :
    (processEntry net delay e).1.filterMap Ev.listingFetchMsg = [] := by
  unfold processEntry
  cases hr : resolvedUrl e with
  | none => rfl
  | some u =>
    rcases hx : extract_emails_from_profile net u with ⟨xevs, xems⟩
    have ht : xevs = (fetch net u 2).1 := by
      rw [← extract_emails_trace net u, hx]
    have hfp := fetchLoop_no_listing_print net u 2 0
    simp only [hr, hx]
    rw [ht]
    simp only [List.filterMap_cons, List.filterMap_append, visiting_msg_not_listing]
    unfold fetch
    rw [hfp]
    rfl

theorem processEntry_snd {ε : Type} (net : Net ε) (delay : ℚ) (e : ListingEntry) :
    (processEntry net delay e).2 =
      { company_name := e.name
        company_profile_url := resolvedUrl e
        company_geo := e.listing_location
        company_emails := String.intercalate "; " (entryEmails net e) } := by
  unfold processEntry entryEmails
  cases hr : resolvedUrl e with
  | none =>
    simp [hr]
    rfl
  | some u =>
    rcases hx : extract_emails_from_profile net u with ⟨xevs, xems⟩
    simp only [hr, hx]
    cases xems with
    | nil =>
      simp
      rfl
    | cons a l => simp

theorem scrapeLoop_succ_err {ε : Type} (net : Net ε) (delay : ℚ) (p rem : Nat)
    (fevs : List Ev) (e : ε)
    (h : fetch net (listingUrl p) 2 = (fevs, Except.error e)) :
    scrapeLoop net delay p (rem + 1) =
      (Ev.print ("Fetching listing page: " ++ listingUrl p) :: fevs, Except.error e) := by
  simp [scrapeLoop, h]

theorem scrapeLoop_succ_ok {ε : Type} (net : Net ε) (delay : ℚ) (p rem : Nat)
    (fevs : List Ev) (html : Html) (revs : List Ev)
    (rout : Except ε (List CompanyRecord))
    (h : fetch net (listingUrl p) 2 = (fevs, Except.ok html))
    (h2 : scrapeLoop net delay (p + 1) rem = (revs, rout)) :
    scrapeLoop net delay p (rem + 1) =
      (Ev.print ("Fetching listing page: " ++ listingUrl p) :: fevs ++
         Ev.print ("  found " ++ toString (parse_listing_page html).length ++
           " company name entries on page " ++ toString p) ::
           (((parse_listing_page html).map (processEntry net delay)).map Prod.fst).flatten ++
         Ev.sleep delay :: revs,
       match rout with
       | Except.ok rs => Except.ok
           (((parse_listing_page html).map (processEntry net delay)).map Prod.snd ++ rs)
       | Except.error e => Except.error e) := by
  simp [scrapeLoop, h, h2]
  cases rout <;> rfl

theorem scrapeLoop_ok_records {ε : Type} (net : Net ε) (delay : ℚ) :
    ∀ (rem p : Nat) (rs : List CompanyRecord),
      (scrapeLoop net delay p rem).2 = Except.ok rs →
      ∃ htmls : List Html, htmls.length = rem ∧
        (∀ (i : Nat) (hi : i < htmls.length),
          (fetch net (listingUrl (p + i)) 2).2 = Except.ok (htmls.get ⟨i, hi⟩)) ∧
        rs = (htmls.map (fun h =>
          (parse_listing_page h).map (fun e => (processEntry net delay e).2))).flatten := by
  intro rem
  induction rem with
  | zero =>
    intro p rs h
    simp only [scrapeLoop] at h
    refine ⟨[], rfl, by intro i hi; simp at hi, ?_⟩
    simp at h
    simp [h]
  | succ rem ih =>
    intro p rs h
    rcases hf : fetch net (listingUrl p) 2 with ⟨fevs, fres⟩
    cases fres with
    | error e =>
      rw [scrapeLoop_succ_err net delay p rem fevs e hf] at h
      simp at h
    | ok html =>
      rcases hsl : scrapeLoop net delay (p + 1) rem with ⟨revs, rout⟩
      rw [scrapeLoop_succ_ok net delay p rem fevs html revs rout hf hsl] at h
      cases rout with
      | error e => simp at h
      | ok rs2 =>
        simp only [Except.ok.injEq] at h
        obtain ⟨htmls, hlen, hfetch, hrs⟩ := ih (p + 1) rs2 (by rw [hsl])
        refine ⟨html :: htmls, by simp [hlen], ?_, ?_⟩
        · intro i hi
          cases i with
          | zero =>
            simp only [Nat.add_zero, hf, List.get]
          | succ j =>
            have hj : j < htmls.length := by simpa using hi
            have := hfetch j hj
            have harith : p + (j + 1) = p + 1 + j := by omega
            rw [harith]
            simpa using this
        · rw [← h, hrs]
          simp [Function.comp]

theorem scrapeLoop_succ_fst_ok {ε : Type} (net : Net ε) (delay : ℚ) (p rem : Nat)
    (fevs : List Ev) (html : Html)
    (hf : fetch net (listingUrl p) 2 = (fevs, Except.ok html)) :
    (scrapeLoop net delay p (rem + 1)).1 =
      Ev.print ("Fetching listing page: " ++ listingUrl p) :: fevs ++
        Ev.print ("  found " ++ toString (parse_listing_page html).length ++
          " company name entries on page " ++ toString p) ::
          (((parse_listing_page html).map (processEntry net delay)).map Prod.fst).flatten ++
        Ev.sleep delay :: (scrapeLoop net delay (p + 1) rem).1 := by
  rcases hsl : scrapeLoop net delay (p + 1) rem with ⟨revs, rout⟩
  rw [scrapeLoop_succ_ok net delay p rem fevs html revs rout hf hsl]

theorem scrapeLoop_succ_snd_ok {ε : Type} (net : Net ε) (delay : ℚ) (p rem : Nat)
    (fevs : List Ev) (html : Html) (rs2 : List CompanyRecord)
    (hf : fetch net (listingUrl p) 2 = (fevs, Except.ok html))
    (hr : (scrapeLoop net delay (p + 1) rem).2 = Except.ok rs2) :
    (scrapeLoop net delay p (rem + 1)).2 =
      Except.ok (((parse_listing_page html).map (processEntry net delay)).map Prod.snd ++ rs2) := by
  rcases hsl : scrapeLoop net delay (p + 1) rem with ⟨revs, rout⟩
  rw [hsl] at hr
  simp only at hr
  subst hr
  rw [scrapeLoop_succ_ok net delay p rem fevs html revs _ hf hsl]

theorem scrapeLoop_succ_snd_err {ε : Type} (net : Net ε) (delay : ℚ) (p rem : Nat)
    (fevs : List Ev) (html : Html) (e : ε)
    (hf : fetch net (listingUrl p) 2 = (fevs, Except.ok html))
    (hr : (scrapeLoop net delay (p + 1) rem).2 = Except.error e) :
    (scrapeLoop net delay p (rem + 1)).2 = Except.error e := by
  rcases hsl : scrapeLoop net delay (p + 1) rem with ⟨revs, rout⟩
  rw [hsl] at hr
  simp only at hr
  subst hr
  rw [scrapeLoop_succ_ok net delay p rem fevs html revs _ hf hsl]

theorem scrapeLoop_succ_ok_inv {ε : Type} (net : Net ε) (delay : ℚ) (p rem : Nat)
    (rs : List CompanyRecord)
    (h : (scrapeLoop net delay p (rem + 1)).2 = Except.ok rs) :
    ∃ fevs html rs2, fetch net (listingUrl p) 2 = (fevs, Except.ok html) ∧
      (scrapeLoop net delay (p + 1) rem).2 = Except.ok rs2 ∧
      rs = ((parse_listing_page html).map (processEntry net delay)).map Prod.snd ++ rs2 := by
  rcases hf : fetch net (listingUrl p) 2 with ⟨fevs, fres⟩
  cases fres with
  | error e =>
    rw [scrapeLoop_succ_err net delay p rem fevs e hf] at h
    simp at h
  | ok html =>
    rcases hsl : scrapeLoop net delay (p + 1) rem with ⟨revs, rout⟩
    rw [scrapeLoop_succ_ok net delay p rem fevs html revs rout hf hsl] at h
    cases rout with
    | error e => simp at h
    | ok rs2 =>
      simp only [Except.ok.injEq] at h
      exact ⟨fevs, html, rs2, rfl, rfl, h.symm⟩

theorem scrapeLoop_add_fst {ε : Type} (net : Net ε) (delay : ℚ) :
    ∀ (a p b : Nat) (rs : List CompanyRecord),
      (scrapeLoop net delay p a).2 = Except.ok rs →
      (scrapeLoop net delay p (a + b)).1 =
        (scrapeLoop net delay p a).1 ++ (scrapeLoop net delay (p + a) b).1 := by
  intro a
  induction a with
  | zero =>
    intro p b rs _
    have h1 : (scrapeLoop net delay p 0).1 = [] := rfl
    have h2 : p + 0 = p := by omega
    have h3 : 0 + b = b := by omega
    rw [h1, h2, h3, List.nil_append]
  | succ a ih =>
    intro p b rs h
    obtain ⟨fevs, html, rs2, hf, hrec, hrs⟩ := scrapeLoop_succ_ok_inv net delay p a rs h
    have harith : a + 1 + b = (a + b) + 1 := by omega
    rw [harith]
    rw [scrapeLoop_succ_fst_ok net delay p (a + b) fevs html hf]
    rw [scrapeLoop_succ_fst_ok net delay p a fevs html hf]
    rw [ih (p + 1) b rs2 hrec]
    have harith2 : p + 1 + a = p + (a + 1) := by omega
    rw [harith2]
    simp

theorem scrapeLoop_add_snd_err {ε : Type} (net : Net ε) (delay : ℚ) :
    ∀ (a p b : Nat) (rs : List CompanyRecord) (e : ε),
      (scrapeLoop net delay p a).2 = Except.ok rs →
      (scrapeLoop net delay (p + a) b).2 = Except.error e →
      (scrapeLoop net delay p (a + b)).2 = Except.error e := by
  intro a
  induction a with
  | zero =>
    intro p b rs e _ hb
    have h2 : p + 0 = p := by omega
    have h3 : (0 : Nat) + b = b := by omega
    rw [h2] at hb
    rw [h3]
    exact hb
  | succ a ih =>
    intro p b rs e h hb
    obtain ⟨fevs, html, rs2, hf, hrec, hrs⟩ := scrapeLoop_succ_ok_inv net delay p a rs h
    have harith2 : p + (a + 1) = p + 1 + a := by omega
    rw [harith2] at hb
    have hrecb := ih (p + 1) b rs2 e hrec hb
    have harith : a + 1 + b = (a + b) + 1 := by omega
    rw [harith]
    exact scrapeLoop_succ_snd_err net delay p (a + b) fevs html e hf hrecb

/-- C3: when a listing-page fetch fails after retries are exhausted
(mid-run, after `k` successfully processed pages), the failure propagates
out of `scrape` uncaught: the run's trace stops right after the failed
fetch's attempts (no further pages or entries are processed) and the outcome
is the raised error, so no record sequence is returned and the records
accumulated so far are lost. -/
theorem c3_listing_failure_aborts {ε : Type} (net : Net ε) (delay : ℚ)
    (pages k : Nat) (rs : List CompanyRecord) (e : ε)
    (hk : k < pages)
    (hok : (scrapeLoop net delay 1 k).2 = Except.ok rs)
    (hfail : (fetch net (listingUrl (k + 1)) 2).2 = Except.error e) :
    (scrape net pages delay).2 = Except.error e ∧
    (scrape net pages delay).1 =
      (scrapeLoop net delay 1 k).1 ++
        Ev.print ("Fetching listing page: " ++ listingUrl (k + 1)) ::
          (fetch net (listingUrl (k + 1)) 2).1 := by
  obtain ⟨d, hd⟩ : ∃ d, pages = k + (d + 1) := ⟨pages - k - 1, by omega⟩
  rcases hfp : fetch net (listingUrl (k + 1)) 2 with ⟨fevs, fres⟩
  rw [hfp] at hfail
  simp only at hfail
  subst hfail
  have hhead : scrapeLoop net delay (1 + k) (d + 1) =
      (Ev.print ("Fetching listing page: " ++ listingUrl (k + 1)) :: fevs, Except.error e) := by
    have h1k : 1 + k = k + 1 := by omega
    rw [h1k]
    exact scrapeLoop_succ_err net delay (k + 1) d fevs e hfp
  constructor
  · unfold scrape
    rw [hd]
    have := scrapeLoop_add_snd_err net delay k 1 (d + 1) rs e hok (by rw [hhead])
    exact this
  · unfold scrape
    rw [hd]
    rw [scrapeLoop_add_fst net delay k 1 (d + 1) rs hok]
    rw [hhead]

/-- Witness for C3: on a network serving only the bare base URL, a 2-page run
aborts with the page-2 fetch failure. -/
theorem c3_witness :
    (scrape netListingOnly 2 1).2 = Except.error 0 :=
  (c3_listing_failure_aborts netListingOnly 1 2 1 [] 0 (by omega) (by rfl) (by rfl)).1

theorem scrapeLoop_ok_of_fetch_ok {ε : Type} (net : Net ε) (delay : ℚ) :
    ∀ (rem p : Nat),
      (∀ k, p ≤ k → k < p + rem → ∃ h2, (fetch net (listingUrl k) 2).2 = Except.ok h2) →
      ∃ rs, (scrapeLoop net delay p rem).2 = Except.ok rs := by
  intro rem
  induction rem with
  | zero => intro p _; exact ⟨[], rfl⟩
  | succ rem ih =>
    intro p h
    obtain ⟨html, hh⟩ := h p (le_refl _) (by omega)
    rcases hf : fetch net (listingUrl p) 2 with ⟨fevs, fres⟩
    rw [hf] at hh
    simp only at hh
    subst hh
    obtain ⟨rs2, hrs2⟩ := ih (p + 1) (fun k h1 h2 => h k (by omega) (by omega))
    exact ⟨_, scrapeLoop_succ_snd_ok net delay p rem fevs html rs2 hf hrs2⟩

/-- C4: a profile fetch that fails after retries is swallowed by the email
extractor, which returns the empty sequence instead of propagating; hence an
entry resolving to that profile gets empty `company_emails`, and a run whose
listing fetches all succeed completes with a result regardless of profile
failures. -/
theorem c4_profile_failure_swallowed {ε : Type} (net : Net ε) (url : String) (e : ε)
    (h : (fetch net url 2).2 = Except.error e) :
    (extract_emails_from_profile net url).2 = [] ∧
    (∀ (delay : ℚ) (entry : ListingEntry), resolvedUrl entry = some url →
      (processEntry net delay entry).2.company_emails = "") ∧
    (∀ (pages : Nat) (delay : ℚ),
      (∀ k, 1 ≤ k → k ≤ pages → ∃ h2, (fetch net (listingUrl k) 2).2 = Except.ok h2) →
      ∃ rs, (scrape net pages delay).2 = Except.ok rs) := by
  refine ⟨?_, ?_, ?_⟩
  · unfold extract_emails_from_profile
    rcases hf : fetch net url 2 with ⟨evs, res⟩
    rw [hf] at h
    simp only at h
    subst h
    rfl
  · intro delay entry hr
    have hx : (extract_emails_from_profile net url).2 = [] := by
      unfold extract_emails_from_profile
      rcases hf : fetch net url 2 with ⟨evs, res⟩
      rw [hf] at h
      simp only at h
      subst h
      rfl
    rw [processEntry_snd]
    simp only [entryEmails, hr, hx]
    rfl
  · intro pages delay hall
    exact scrapeLoop_ok_of_fetch_ok net delay pages 1
      (fun k h1 h2 => hall k h1 (by omega))

/-- Witness for C4: on a network where every attempt fails, the extractor
returns the empty email list for a profile URL. -/
theorem c4_witness : (extract_emails_from_profile netAllFail "x").2 = [] :=
  (c4_profile_failure_swallowed netAllFail "x" 0 rfl).1

theorem flatten_filterMap_nil {α β : Type} (f : α → Option β) :
    ∀ (L : List (List α)), (∀ l ∈ L, l.filterMap f = []) →
      L.flatten.filterMap f = [] := by
  intro L
  induction L with
  | nil => intro _; rfl
  | cons l L ih =>
    intro h
    rw [List.flatten_cons, List.filterMap_append, h l (by simp),
      ih (fun x hx => h x (by simp [hx]))]
    rfl

theorem scrapeLoop_listing_prints {ε : Type} (net : Net ε) (delay : ℚ) :
    ∀ (rem p : Nat) (rs : List CompanyRecord),
      (scrapeLoop net delay p rem).2 = Except.ok rs →
      (scrapeLoop net delay p rem).1.filterMap Ev.listingFetchMsg =
        (List.range rem).map (fun i => "Fetching listing page: " ++ listingUrl (p + i)) := by
  intro rem
  induction rem with
  | zero => intro p rs _; rfl
  | succ rem ih =>
    intro p rs h
    obtain ⟨fevs, html, rs2, hf, hrec, _⟩ := scrapeLoop_succ_ok_inv net delay p rem rs h
    rw [scrapeLoop_succ_fst_ok net delay p rem fevs html hf]
    have hfevs : fevs.filterMap Ev.listingFetchMsg = [] := by
      have : fevs = (fetch net (listingUrl p) 2).1 := by rw [hf]
      rw [this]
      exact fetchLoop_no_listing_print net (listingUrl p) 2 0
    have hentries : ((((parse_listing_page html).map (processEntry net delay)).map
        Prod.fst).flatten).filterMap Ev.listingFetchMsg = [] := by
      apply flatten_filterMap_nil
      intro l hl
      rw [List.map_map] at hl
      obtain ⟨entry, _, hentry⟩ := List.mem_map.mp hl
      rw [← hentry]
      exact processEntry_no_listing_print net delay entry
    have hsleep : Ev.listingFetchMsg (Ev.sleep delay) = none := rfl
    simp only [List.filterMap_cons, List.filterMap_append, listing_msg_is_listing,
      found_msg_not_listing, hsleep, hfevs, hentries, List.nil_append, List.append_nil]
    rw [ih (p + 1) rs2 hrec]
    rw [List.range_succ_eq_map, List.map_cons, List.map_map, List.singleton_append]
    congr 1
    apply List.map_congr_left
    intro i _
    simp only [Function.comp]
    congr 2
    omega

/-- C8: a completed run with `page_count ≥ 1` issues exactly `page_count`
listing fetches, in page order, page 1 from the bare base URL and page
`N > 1` from the base URL with a `page=N` query parameter (each listing
fetch call is announced by exactly one console message, so the announced
URLs enumerate the listing fetches). -/
theorem c8_listing_fetch_urls {ε : Type} (net : Net ε) (pages : Nat) (delay : ℚ)
    (rs : List CompanyRecord) (hp : 1 ≤ pages)
    (h : (scrape net pages delay).2 = Except.ok rs) :
    (scrape net pages delay).1.filterMap Ev.listingFetchMsg =
      (List.range pages).map (fun i =>
        "Fetching listing page: " ++
          (if i = 0 then BASE_LISTING else BASE_LISTING ++ "?page=" ++ toString (i + 1))) := by
  unfold scrape at h ⊢
  rw [scrapeLoop_listing_prints net delay pages 1 rs h]
  apply List.map_congr_left
  intro i _
  congr 1
  unfold listingUrl
  cases i with
  | zero => rfl
  | succ j =>
    have h2 : 1 + (j + 1) = j + 1 + 1 := by omega
    simp only [h2]
    rw [if_pos (show 1 < j + 1 + 1 by omega), if_neg (show ¬(j + 1 = 0) by omega)]

/-- Witness for C8: a 2-page run on an all-ok network announces exactly the
two listing URLs, the second being `BASE_LISTING?page=2`. -/
theorem c8_witness :
    (scrape netAlwaysOk 2 1).1.filterMap Ev.listingFetchMsg =
      (List.range 2).map (fun i =>
        "Fetching listing page: " ++
          (if i = 0 then BASE_LISTING else BASE_LISTING ++ "?page=" ++ toString (i + 1))) :=
  c8_listing_fetch_urls netAlwaysOk 2 1 [] (by omega) (by rfl)

/-- C9: a completed run produces exactly one CompanyRecord per parsed
ListingEntry, in entry order across pages (page `i` is parsed from the
document its listing fetch returned), and every record's `company_emails` is
the entry's extracted email list joined with `"; "` (the empty string when no
emails were extracted, since joining the empty list yields the empty
string). -/
theorem c9_one_record_per_entry {ε : Type} (net : Net ε) (pages : Nat) (delay : ℚ)
    (rs : List CompanyRecord) (h : (scrape net pages delay).2 = Except.ok rs) :
    (∃ htmls : List Html, htmls.length = pages ∧
      (∀ (i : Nat) (hi : i < htmls.length),
        (fetch net (listingUrl (1 + i)) 2).2 = Except.ok (htmls.get ⟨i, hi⟩)) ∧
      rs = (htmls.map (fun h2 =>
        (parse_listing_page h2).map (fun e => (processEntry net delay e).2))).flatten) ∧
    (∀ e : ListingEntry, (processEntry net delay e).2 =
      { company_name := e.name
        company_profile_url := resolvedUrl e
        company_geo := e.listing_location
        company_emails := String.intercalate "; " (entryEmails net e) }) :=
  ⟨scrapeLoop_ok_records net delay pages 1 rs h,
   fun e => processEntry_snd net delay e⟩

/-- Witness for C9: a one-page run on the demo network produces exactly the
Acme record, with both discovered emails joined by "; ". -/
theorem c9_witness :
    ((∃ htmls : List Html, htmls.length = 1 ∧
      (∀ (i : Nat) (hi : i < htmls.length),
        (fetch netDemo (listingUrl (1 + i)) 2).2 = Except.ok (htmls.get ⟨i, hi⟩)) ∧
      [⟨"Acme Co", some "https://www.goodfirms.co/company/acme", some "New York, US",
          "info@acme.com; sales@acme.com"⟩] = (htmls.map (fun h2 =>
        (parse_listing_page h2).map (fun e => (processEntry netDemo 1 e).2))).flatten) ∧
    (∀ e : ListingEntry, (processEntry netDemo 1 e).2 =
      { company_name := e.name
        company_profile_url := resolvedUrl e
        company_geo := e.listing_location
        company_emails := String.intercalate "; " (entryEmails netDemo e) })) :=
  c9_one_record_per_entry netDemo 1 1
    [⟨"Acme Co", some "https://www.goodfirms.co/company/acme", some "New York, US",
        "info@acme.com; sales@acme.com"⟩] (by rfl)

theorem lexLe_total : ∀ a b : List Char, lexLe a b = true ∨ lexLe b a = true := by
  intro a
  induction a with
  | nil => intro b; left; rfl
  | cons x xs ih =>
    intro b
    cases b with
    | nil => right; rfl
    | cons y ys =>
      rcases lt_trichotomy x y with h | h | h
      · left; simp [lexLe, h]
      · subst h
        rcases ih ys with h2 | h2
        · left; simp [lexLe, lt_irrefl, h2]
        · right; simp [lexLe, lt_irrefl, h2]
      · right; simp [lexLe, h]

theorem lexLe_trans : ∀ a b c : List Char,
    lexLe a b = true → lexLe b c = true → lexLe a c = true := by
  intro a
  induction a with
  | nil => intro b c _ _; rfl
  | cons x xs ih =>
    intro b c h1 h2
    cases b with
    | nil => simp [lexLe] at h1
    | cons y ys =>
      cases c with
      | nil => simp [lexLe] at h2
      | cons z zs =>
        simp only [lexLe] at h1 h2 ⊢
        by_cases hxy : x < y
        · by_cases hyz : y < z
          · simp [lt_trans hxy hyz]
          · by_cases hzy : z < y
            · simp [hyz, hzy] at h2
            · have hyz2 : y = z := le_antisymm (not_lt.mp hzy) (not_lt.mp hyz)
              subst hyz2
              simp [hxy]
        · by_cases hyx : y < x
          · simp [hxy, hyx] at h1
          · have hxy2 : x = y := le_antisymm (not_lt.mp hyx) (not_lt.mp hxy)
            subst hxy2
            simp only [lt_irrefl, if_false] at h1
            by_cases hxz : x < z
            · simp [hxz]
            · by_cases hzx : z < x
              · simp [hxz, hzx] at h2
              · simp only [if_neg hxz, if_neg hzx] at h2 ⊢
                exact ih ys zs h1 h2

theorem lexLe_antisymm : ∀ a b : List Char,
    lexLe a b = true → lexLe b a = true → a = b := by
  intro a
  induction a with
  | nil =>
    intro b _ h2
    cases b with
    | nil => rfl
    | cons y ys => simp [lexLe] at h2
  | cons x xs ih =>
    intro b h1 h2
    cases b with
    | nil => simp [lexLe] at h1
    | cons y ys =>
      simp only [lexLe] at h1 h2
      by_cases hxy : x < y
      · simp [hxy, lt_asymm hxy] at h2
      · by_cases hyx : y < x
        · simp [hxy, hyx] at h1
        · have hxy2 : x = y := le_antisymm (not_lt.mp hyx) (not_lt.mp hxy)
          subst hxy2
          simp only [lt_irrefl, if_false] at h1 h2
          rw [ih ys h1 h2]

theorem setAdd_nodup (acc : List String) (m : String) (h : acc.Nodup) :
    (setAdd acc m).Nodup := by
  unfold setAdd
  split_ifs with hm
  · exact h
  · simp [List.nodup_append, h, hm]

theorem mem_setAdd (acc : List String) (m x : String) :
    x ∈ setAdd acc m ↔ x ∈ acc ∨ x = m := by
  unfold setAdd
  split_ifs with hm
  · constructor
    · exact Or.inl
    · rintro (h | rfl)
      · exact h
      · exact hm
  · simp [List.mem_append]

theorem fold_setAdd_nodup : ∀ (l acc : List String), acc.Nodup →
    (l.foldl setAdd acc).Nodup := by
  intro l
  induction l with
  | nil => intro acc h; exact h
  | cons a l ih => intro acc h; exact ih (setAdd acc a) (setAdd_nodup acc a h)

theorem mem_fold_setAdd : ∀ (l acc : List String) (x : String),
    x ∈ l.foldl setAdd acc ↔ x ∈ acc ∨ x ∈ l := by
  intro l
  induction l with
  | nil => intro acc x; simp
  | cons a l ih =>
    intro acc x
    rw [List.foldl_cons, ih (setAdd acc a) x, mem_setAdd]
    simp [or_assoc]

theorem fold_searchAdd_eq (l : List String) : ∀ acc : List String,
    l.foldl (fun acc href =>
      match EMAIL_RE_search href with
      | some m => setAdd acc m
      | none => acc) acc =
    (l.filterMap EMAIL_RE_search).foldl setAdd acc := by
  induction l with
  | nil => intro acc; rfl
  | cons a l ih =>
    intro acc
    rw [List.foldl_cons, List.filterMap_cons]
    cases h : EMAIL_RE_search a with
    | none => simp only [h]; exact ih acc
    | some m => simp only [h, List.foldl_cons]; exact ih (setAdd acc m)

/-- C5: the email list returned by the extractor has no duplicates, is sorted
ascending in the lexicographic string order, and does not depend on the
discovery method's order: collecting plain-text matches before mailto matches
yields the same output (and the extractor is a pure function of its input,
hence deterministic across invocations). -/
theorem c5_extract_emails_sorted_nodup {ε : Type} (net : Net ε) (url : String) :
    (extract_emails_from_profile net url).2.Nodup ∧
    List.Sorted (fun a b => strLeb a b = true) (extract_emails_from_profile net url).2 ∧
    (extract_emails_from_profile net url).2 = (extract_emails_swapped net url).2 := by
  haveI hTot : IsTotal String (fun a b => strLeb a b = true) :=
    ⟨fun a b => lexLe_total a.data b.data⟩
  haveI hTrans : IsTrans String (fun a b => strLeb a b = true) :=
    ⟨fun a b c => lexLe_trans a.data b.data c.data⟩
  haveI hAnti : IsAntisymm String (fun a b => strLeb a b = true) :=
    ⟨fun a b h1 h2 => by
      cases a; cases b
      exact congrArg String.mk (lexLe_antisymm _ _ h1 h2)⟩
  unfold extract_emails_from_profile extract_emails_swapped
  rcases hf : fetch net url 2 with ⟨evs, res⟩
  cases res with
  | error e => exact ⟨List.nodup_nil, List.sorted_nil, rfl⟩
  | ok html =>
    dsimp only
    have e1 : (EMAIL_RE_findall html.text).foldl (fun acc m => setAdd acc m)
        (html.mailto_hrefs.foldl (fun acc href =>
          match EMAIL_RE_search href with
          | some m => setAdd acc m
          | none => acc) []) =
        ((html.mailto_hrefs.filterMap EMAIL_RE_search) ++
          EMAIL_RE_findall html.text).foldl setAdd [] := by
      rw [fold_searchAdd_eq, List.foldl_append]
    have e2 : html.mailto_hrefs.foldl (fun acc href =>
        match EMAIL_RE_search href with
        | some m => setAdd acc m
        | none => acc)
        ((EMAIL_RE_findall html.text).foldl (fun acc m => setAdd acc m) []) =
        (EMAIL_RE_findall html.text ++
          html.mailto_hrefs.filterMap EMAIL_RE_search).foldl setAdd [] := by
      rw [fold_searchAdd_eq, List.foldl_append]
    rw [e1, e2]
    have hnodA : (((html.mailto_hrefs.filterMap EMAIL_RE_search) ++
        EMAIL_RE_findall html.text).foldl setAdd []).Nodup :=
      fold_setAdd_nodup _ [] List.nodup_nil
    have hnodB : ((EMAIL_RE_findall html.text ++
        html.mailto_hrefs.filterMap EMAIL_RE_search).foldl setAdd []).Nodup :=
      fold_setAdd_nodup _ [] List.nodup_nil
    have hperm : (((html.mailto_hrefs.filterMap EMAIL_RE_search) ++
          EMAIL_RE_findall html.text).foldl setAdd []).Perm
        ((EMAIL_RE_findall html.text ++
          html.mailto_hrefs.filterMap EMAIL_RE_search).foldl setAdd []) := by
      rw [List.perm_ext_iff_of_nodup hnodA hnodB]
      intro x
      rw [mem_fold_setAdd, mem_fold_setAdd]
      simp only [List.mem_append]
      tauto
    refine ⟨?_, ?_, ?_⟩
    · exact ((List.perm_insertionSort _ _).symm).nodup hnodA
    · exact List.sorted_insertionSort _ _
    · refine @List.eq_of_perm_of_sorted String (fun a b => strLeb a b = true) hAnti _ _ ?_ ?_ ?_
      · exact ((List.perm_insertionSort _ _).trans hperm).trans
          (List.perm_insertionSort _ _).symm
      · exact List.sorted_insertionSort _ _
      · exact List.sorted_insertionSort _ _

theorem https_shape_of_data (u : String)
    (h : ∃ t : List Char, u.data = "https://".data ++ t) :
    strStartsWith u "http" = true ∧ strStartsWith u "https://" = true ∧
    hasSchemeAndAuthority u = true := by
  obtain ⟨t, ht⟩ := h
  cases u with
  | mk d =>
    dsimp only at ht
    subst ht
    refine ⟨?_, ?_, ?_⟩ <;> rfl

theorem urljoin_base_scheme (s : String) (hne : s.isEmpty = false)
    (p : String × String) (hs : splitScheme s = some p) :
    urljoin BASE_LISTING s = s := by
  have hb : BASE_LISTING.isEmpty = false := rfl
  simp [urljoin, hb, hne, hs]

theorem isPre_exists : ∀ (p l : List Char), isPre p l = true → ∃ t, l = p ++ t := by
  intro p
  induction p with
  | nil => intro l _; exact ⟨l, rfl⟩
  | cons a as ih =>
    intro l h
    cases l with
    | nil => simp [isPre] at h
    | cons b bs =>
      simp only [isPre] at h
      by_cases hab : (a == b) = true
      · rw [if_pos hab] at h
        obtain ⟨t, ht⟩ := ih bs h
        refine ⟨t, ?_⟩
        rw [ht, List.cons_append]
        congr 1
        exact (beq_iff_eq.mp hab).symm
      · rw [if_neg hab] at h
        simp at h

theorem https_shape_of_startsWith (u : String)
    (h : strStartsWith u "https://" = true) :
    strStartsWith u "http" = true ∧ strStartsWith u "https://" = true ∧
    hasSchemeAndAuthority u = true := by
  obtain ⟨t, ht⟩ := isPre_exists _ _ h
  exact https_shape_of_data u ⟨t, ht⟩

theorem urljoin_base_noscheme (s : String) (hne : s.isEmpty = false)
    (hs : splitScheme s = none) :
    strStartsWith (urljoin BASE_LISTING s) "http" = true ∧
    strStartsWith (urljoin BASE_LISTING s) "https://" = true ∧
    hasSchemeAndAuthority (urljoin BASE_LISTING s) = true := by
  have hb : BASE_LISTING.isEmpty = false := rfl
  have hbs : splitScheme BASE_LISTING =
      some ("https", "//www.goodfirms.co/big-data-analytics/data-analytics") := rfl
  have hsl : strStartsWith "//www.goodfirms.co/big-data-analytics/data-analytics" "//" = true := rfl
  have hnl : netlocSplit ("//www.goodfirms.co/big-data-analytics/data-analytics".drop 2) =
      ("www.goodfirms.co", "/big-data-analytics/data-analytics") := rfl
  unfold urljoin
  simp only [hb, hne, hs, hbs, hsl, hnl, Bool.false_eq_true, if_false]
  by_cases hss : strStartsWith s "//" = true
  · simp only [hss, if_true]
    obtain ⟨t, ht⟩ := isPre_exists ("//".data) s.data hss
    apply https_shape_of_startsWith
    unfold strStartsWith
    rw [String.data_append, String.data_append, ht]
    rfl
  · simp only [hss, Bool.false_eq_true, if_false]
    split_ifs with h1 h2
    all_goals apply https_shape_of_startsWith
    all_goals unfold strStartsWith
    all_goals simp only [String.data_append]
    all_goals rfl

theorem resolve_profile_url_cases (href u : String)
    (h : resolve_profile_url (some href) = some u) :
    (strStartsWith href "http" = true ∧ u = href) ∨
    (href.isEmpty = false ∧ strStartsWith href "http" = false ∧
      u = urljoin BASE_LISTING href) := by
  unfold resolve_profile_url at h
  dsimp only at h
  by_cases h1 : href.isEmpty = true
  · rw [if_pos h1] at h
    cases h
  · rw [if_neg h1] at h
    by_cases h2 : strStartsWith href "http" = true
    · rw [if_pos h2] at h
      simp only [Option.some.injEq] at h
      exact Or.inl ⟨h2, h.symm⟩
    · rw [if_neg h2] at h
      simp only [Option.some.injEq] at h
      exact Or.inr ⟨by simpa using h1, by simpa using h2, h.symm⟩

/-- C7 counterexample: a listing entry whose href is the relative path
`httpx.html` (which begins with `http`) is passed through unchanged, so the
produced CompanyRecord has a non-null `company_profile_url` that has no
scheme and no authority, refuting the claimed invariant. -/
theorem c7_counterexample :
    (scrape netHttpx 1 1).2 =
      Except.ok [{ company_name := "Acme", company_profile_url := some "httpx.html",
                   company_geo := none, company_emails := "" }] ∧
    hasSchemeAndAuthority "httpx.html" = false := ⟨rfl, rfl⟩

/-- C7 (amended): every non-null `company_profile_url` of a completed run
either begins with `http` (the href was passed through verbatim by the
`startswith('http')` guard) or carries an explicit scheme copied verbatim
from the href; an href with no scheme that does not begin with `http` always
resolves to an absolute URL beginning with `https://`, with scheme and
authority. -/
theorem c7_profile_url_amended {ε : Type} (net : Net ε) (pages : Nat) (delay : ℚ)
    (rs : List CompanyRecord) (h : (scrape net pages delay).2 = Except.ok rs) :
    (∀ r ∈ rs, ∀ u : String, r.company_profile_url = some u →
      strStartsWith u "http" = true ∨ splitScheme u ≠ none) ∧
    (∀ href u : String, href.isEmpty = false → strStartsWith href "http" = false →
      splitScheme href = none → resolve_profile_url (some href) = some u →
      strStartsWith u "https://" = true ∧ hasSchemeAndAuthority u = true) := by
  constructor
  · intro r hr u hu
    obtain ⟨htmls, _, _, hrs⟩ := scrapeLoop_ok_records net delay pages 1 rs h
    subst hrs
    rw [List.mem_flatten] at hr
    obtain ⟨l, hl, hrl⟩ := hr
    rw [List.mem_map] at hl
    obtain ⟨html, _, hhtml⟩ := hl
    rw [← hhtml, List.mem_map] at hrl
    obtain ⟨entry, _, hentry⟩ := hrl
    have hcp : (processEntry net delay entry).2.company_profile_url = resolvedUrl entry := by
      rw [processEntry_snd]
    rw [← hentry, hcp] at hu
    unfold resolvedUrl at hu
    by_cases ht : truthy entry.profile_href = true
    · rw [if_pos ht] at hu
      cases hh : entry.profile_href with
      | none => rw [hh] at hu; cases hu
      | some href =>
        rw [hh] at hu
        rcases resolve_profile_url_cases href u hu with ⟨hpre, rfl⟩ | ⟨hne2, hnpre, rfl⟩
        · exact Or.inl hpre
        · cases hsc : splitScheme href with
          | some p =>
            rw [urljoin_base_scheme href hne2 p hsc]
            refine Or.inr ?_
            rw [hsc]
            simp
          | none =>
            exact Or.inl (urljoin_base_noscheme href hne2 hsc).1
    · rw [if_neg ht] at hu
      cases hu
  · intro href u hne hnp hsc hres
    rcases resolve_profile_url_cases href u hres with ⟨hpre, _⟩ | ⟨_, _, rfl⟩
    · rw [hpre] at hnp
      cases hnp
    · exact ⟨(urljoin_base_noscheme href hne hsc).2.1,
        (urljoin_base_noscheme href hne hsc).2.2⟩

/-- Witness for the amended C7: instantiated on a completed empty run; in
particular the resolver clause applies to every schemeless href. -/
theorem c7_witness :
    (∀ r ∈ ([] : List CompanyRecord), ∀ u : String, r.company_profile_url = some u →
      strStartsWith u "http" = true ∨ splitScheme u ≠ none) ∧
    (∀ href u : String, href.isEmpty = false → strStartsWith href "http" = false →
      splitScheme href = none → resolve_profile_url (some href) = some u →
      strStartsWith u "https://" = true ∧ hasSchemeAndAuthority u = true) :=
  c7_profile_url_amended netAlwaysOk 1 1 [] (by rfl)
